import Mathlib

/-
Verification of the tool-result rendering logic and session bookkeeping of
med-oryx-ade (src/app.py).  Python strings are modelled as lists of
characters; the display calls of the two (verbatim identical) rendering
blocks are modelled as a tagged `RenderedResult` value; `json.loads` is
modelled by a fueled recursive-descent JSON reader following the grammar
accepted by Python's strict json decoder.
-/

namespace MedOryxADE

/-- Python strings are modelled as lists of characters. -/
abbrev Str := List Char

/-- Convert a Lean string literal into the character-list model. -/
def strOf (s : String) : Str := s.data

/-- The single-quote character (code point 39). -/
def sq : Char := Char.ofNat 39

/-- The double-quote character (code point 34). -/
def dq : Char := Char.ofNat 34

/-- The backslash character (code point 92). -/
def bslash : Char := Char.ofNat 92

/-- The newline character (code point 10). -/
def nlChar : Char := Char.ofNat 10

/-- The opening curly-bracket character (code point 123). -/
def lcurly : Char := Char.ofNat 123

/-- The closing curly-bracket character (code point 125). -/
def rcurly : Char := Char.ofNat 125

/-- Python's `pat in s` substring test. -/
def strContains (hay pat : Str) : Bool :=
  (List.range (hay.length + 1)).any (fun i => pat.isPrefixOf (hay.drop i))

/-- Python's default `str.strip()` whitespace class (ASCII part). -/
def isPySpace (c : Char) : Bool :=
  c = ' ' || c = Char.ofNat 9 || c = nlChar || c = Char.ofNat 13 ||
  c = Char.ofNat 11 || c = Char.ofNat 12

/-- Python's `str.strip()`: drop leading and trailing whitespace. -/
def pyStrip (cs : Str) : Str :=
  ((cs.dropWhile isPySpace).reverse.dropWhile isPySpace).reverse

/-- Python's `str.split(sep)` for a one-character separator: split on every
occurrence, keeping empty segments (`"".split(c) = [""]`). -/
def splitChar (sep : Char) : Str → List Str
  | [] => [[]]
  | c :: rest =>
    if c = sep then [] :: splitChar sep rest
    else
      match splitChar sep rest with
      | s :: ss => (c :: s) :: ss
      | [] => [[c]]

/-- Python's `str.split("\n\n")` (split on a literal double newline,
left-to-right, non-overlapping). -/
def splitDoubleNl : Str → List Str
  | [] => [[]]
  | [c] => [[c]]
  | c :: r1 :: rest2 =>
    if c = nlChar ∧ r1 = nlChar then [] :: splitDoubleNl rest2
    else
      match splitDoubleNl (r1 :: rest2) with
      | s :: ss => (c :: s) :: ss
      | [] => [[c]]

/-- Python's `str.replace(chr(92) ++ "n", newline)` from app.py lines 138,
178, 317, 357: replace each literal backslash-n pair (left to right,
non-overlapping) with a real newline. -/
def replaceEscNl : Str → Str
  | [] => []
  | [c] => [c]
  | c :: r1 :: rest2 =>
    if c = bslash ∧ r1 = 'n' then nlChar :: replaceEscNl rest2
    else c :: replaceEscNl (r1 :: rest2)

/-- Python's `line.split(sep, 1)`: the part before the first occurrence of
the separator and the part after it (here for a one-character separator,
used with the colon).  Returns `(line, [])` when the separator is absent. -/
def splitFirst (sep : Char) : Str → Str × Str
  | [] => ([], [])
  | c :: rest =>
    if c = sep then ([], rest)
    else
      let p := splitFirst sep rest
      (c :: p.1, p.2)

/-- Python dict assignment `d[k] = v`: overwrite the value in place when the
key exists (keeping its original position), otherwise append the pair. -/
def dictInsert {α : Type} (d : List (Str × α)) (k : Str) (v : α) : List (Str × α) :=
  if d.any (fun p => p.1 == k) then
    d.map (fun p => if p.1 = k then (k, v) else p)
  else d ++ [(k, v)]

/-- The pattern `"f-string of i"  ++ ". row"` used by the guards
`any(f-string . row in text for i in range(1, 11))` of app.py. -/
def numPat (i : Nat) : Str := (toString i).data ++ strOf ". row"

/-- The guard `any(f-string i . row in s for i in range(1, 11))`
of app.py lines 141, 175, 320, 354. -/
def anyRowMarker (s : Str) : Bool :=
  (List.range 10).any (fun j => strContains s (numPat (j + 1)))

/-- The tail `". row"` of a row marker as a character list. -/
def rowTail : Str := strOf ". row"

/-- Python's `re.split(r"digits dot space row", text)` from app.py lines 144,
181, 323, 360: scan left to right; each maximal digit run immediately
followed by `". row"` is a match and separates two segments.  `acc` holds
the (reversed) current segment; the fuel strictly exceeds the remaining
length, so the fuel-exhausted case is unreachable. -/
def splitRowsAux : Nat → Str → Str → List Str
  | 0, cs, acc => [acc.reverse ++ cs]
  | _ + 1, [], acc => [acc.reverse]
  | fuel + 1, c :: rest, acc =>
    if c.isDigit then
      if rowTail.isPrefixOf (List.dropWhile Char.isDigit (c :: rest)) then
        acc.reverse :: splitRowsAux fuel ((List.dropWhile Char.isDigit (c :: rest)).drop 5) []
      else splitRowsAux fuel rest (c :: acc)
    else splitRowsAux fuel rest (c :: acc)

/-- Python's `re.split(r"digits dot space row", text)`. -/
def splitRows (cs : Str) : List Str := splitRowsAux (cs.length + 1) cs []

/-- The pattern `"text="` followed by a single quote, i.e. the literal part
of the regex `text='([^']*)'` of app.py lines 133, 312. -/
def textPat : Str := strOf "text=" ++ [sq]

/-- Does `textPat` occur in `s` starting at position `p`? -/
def markerAt (s : Str) (p : Nat) : Bool := textPat.isPrefixOf (s.drop p)

/-- Python's `re.search(r"text='([^']*)'", s)` and `.group(1)` from app.py
lines 133-136 and 312-315: scan for the leftmost position where the whole
pattern matches; `[^']*` takes every character up to the first single quote,
and the closing quote must exist for the match to succeed (otherwise the
scan continues at the next position). -/
def reSearchTextQuoted : Str → Option Str
  | [] => none
  | c :: rest =>
    if textPat.isPrefixOf (c :: rest) then
      if ((c :: rest).drop 6).any (fun d => d = sq) then
        some (((c :: rest).drop 6).takeWhile (fun d => d ≠ sq))
      else reSearchTextQuoted rest
    else reSearchTextQuoted rest

section JsonModel

/-- Values produced by Python's `json.loads`.  Numeric literals are kept as
their lexeme (Python converts them to int/float; no property here depends on
numeric normalisation).  Objects are Python dicts built by inserting the
parsed pairs in order. -/
inductive JsonVal : Type where
  | jnull : JsonVal
  | jbool (b : Bool) : JsonVal
  | jnum (lexeme : Str) : JsonVal
  | jstr (s : Str) : JsonVal
  | jarr (elems : List JsonVal) : JsonVal
  | jobj (fields : List (Str × JsonVal)) : JsonVal

/-- JSON whitespace accepted between tokens by Python's json decoder. -/
def isJsonWs (c : Char) : Bool :=
  c = ' ' || c = Char.ofNat 9 || c = nlChar || c = Char.ofNat 13

/-- Skip JSON whitespace. -/
def jskipWs (cs : Str) : Str := cs.dropWhile isJsonWs

/-- Value of a hexadecimal digit. -/
def hexVal (c : Char) : Option Nat :=
  if c.isDigit then some (c.toNat - 48)
  else if 'a' ≤ c ∧ c ≤ 'f' then some (c.toNat - 87)
  else if 'A' ≤ c ∧ c ≤ 'F' then some (c.toNat - 55)
  else none

/-- JSON string body reader (after the opening double quote), modelling the
strict scanner of Python's json decoder: backslash escapes, a
four-hex-digit u escape, and rejection of raw control characters. -/
def parseJString : Nat → Str → Option (Str × Str)
  | 0, _ => none
  | _ + 1, [] => none
  | fuel + 1, c :: rest =>
    if c = dq then some (([] : Str), rest)
    else if c = bslash then
      match rest with
      | [] => none
      | e :: r2 =>
        if e = dq ∨ e = bslash ∨ e = '/' then
          (parseJString fuel r2).map (fun p => (e :: p.1, p.2))
        else if e = 'b' then (parseJString fuel r2).map (fun p => (Char.ofNat 8 :: p.1, p.2))
        else if e = 'f' then (parseJString fuel r2).map (fun p => (Char.ofNat 12 :: p.1, p.2))
        else if e = 'n' then (parseJString fuel r2).map (fun p => (nlChar :: p.1, p.2))
        else if e = 'r' then (parseJString fuel r2).map (fun p => (Char.ofNat 13 :: p.1, p.2))
        else if e = 't' then (parseJString fuel r2).map (fun p => (Char.ofNat 9 :: p.1, p.2))
        else if e = 'u' then
          match r2 with
          | h1 :: h2 :: h3 :: h4 :: r3 =>
            match hexVal h1, hexVal h2, hexVal h3, hexVal h4 with
            | some a, some b, some c2, some d =>
              (parseJString fuel r3).map
                (fun p => (Char.ofNat (a * 4096 + b * 256 + c2 * 16 + d) :: p.1, p.2))
            | _, _, _, _ => none
          | _ => none
        else none
    else if c.toNat < 32 then none
    else (parseJString fuel rest).map (fun p => (c :: p.1, p.2))

/-- Optional fraction part `"." ++ digits` of a JSON number; returns the
consumed lexeme part and the rest (consuming nothing when the part does not
match, as the regex group is optional). -/
def parseJFrac (cs : Str) : Str × Str :=
  match cs with
  | c :: r =>
    if c = '.' then
      match r with
      | d :: _ =>
        if d.isDigit then (c :: r.takeWhile Char.isDigit, r.dropWhile Char.isDigit)
        else (([] : Str), cs)
      | [] => (([] : Str), cs)
    else (([] : Str), cs)
  | [] => (([] : Str), cs)

/-- Optional exponent part of a JSON number (same convention as
`parseJFrac`). -/
def parseJExp (cs : Str) : Str × Str :=
  match cs with
  | c :: r =>
    if c = 'e' ∨ c = 'E' then
      let sr :=
        match r with
        | s :: r2 => if s = '+' ∨ s = '-' then (([s] : Str), r2) else (([] : Str), r)
        | [] => (([] : Str), r)
      match sr.2 with
      | d :: _ =>
        if d.isDigit then
          (c :: sr.1 ++ sr.2.takeWhile Char.isDigit, sr.2.dropWhile Char.isDigit)
        else (([] : Str), cs)
      | [] => (([] : Str), cs)
    else (([] : Str), cs)
  | [] => (([] : Str), cs)

/-- JSON number lexer, following the regex of Python's json decoder:
optional minus, `0` or a nonzero-led digit run, optional fraction, optional
exponent.  Returns the lexeme and the rest. -/
def parseJNumber (cs : Str) : Option (Str × Str) :=
  let sr :=
    match cs with
    | c :: r => if c = '-' then (([c] : Str), r) else (([] : Str), cs)
    | [] => (([] : Str), cs)
  match sr.2 with
  | [] => none
  | d :: r2 =>
    if d = '0' then
      let fr := parseJFrac r2
      let ex := parseJExp fr.2
      some (sr.1 ++ [d] ++ fr.1 ++ ex.1, ex.2)
    else if d.isDigit then
      let ds := sr.2.takeWhile Char.isDigit
      let r2b := sr.2.dropWhile Char.isDigit
      let fr := parseJFrac r2b
      let ex := parseJExp fr.2
      some (sr.1 ++ ds ++ fr.1 ++ ex.1, ex.2)
    else none

mutual

/-- Fueled JSON value reader modelling Python's `json.loads` grammar. -/
def parseJVal : Nat → Str → Option (JsonVal × Str)
  | 0, _ => none
  | fuel + 1, cs =>
    match cs with
    | [] => none
    | c :: rest =>
      if c = dq then (parseJString (rest.length + 1) rest).map (fun p => (JsonVal.jstr p.1, p.2))
      else if c = lcurly then
        match jskipWs rest with
        | d :: r2 =>
          if d = rcurly then some (JsonVal.jobj [], r2)
          else
            (parseJObjMembers fuel (jskipWs rest)).map
              (fun p => (JsonVal.jobj (p.1.foldl (fun acc kv => dictInsert acc kv.1 kv.2) []), p.2))
        | [] => none
      else if c = '[' then
        match jskipWs rest with
        | d :: r2 =>
          if d = ']' then some (JsonVal.jarr [], r2)
          else (parseJArrElems fuel (jskipWs rest)).map (fun p => (JsonVal.jarr p.1, p.2))
        | [] => none
      else if (strOf "true").isPrefixOf cs then some (JsonVal.jbool true, cs.drop 4)
      else if (strOf "false").isPrefixOf cs then some (JsonVal.jbool false, cs.drop 5)
      else if (strOf "null").isPrefixOf cs then some (JsonVal.jnull, cs.drop 4)
      else if (strOf "NaN").isPrefixOf cs then some (JsonVal.jnum (strOf "NaN"), cs.drop 3)
      else if (strOf "Infinity").isPrefixOf cs then
        some (JsonVal.jnum (strOf "Infinity"), cs.drop 8)
      else if (strOf "-Infinity").isPrefixOf cs then
        some (JsonVal.jnum (strOf "-Infinity"), cs.drop 9)
      else if c = '-' ∨ c.isDigit then (parseJNumber cs).map (fun p => (JsonVal.jnum p.1, p.2))
      else none

/-- Elements of a nonempty JSON array (positioned at the first element). -/
def parseJArrElems : Nat → Str → Option (List JsonVal × Str)
  | 0, _ => none
  | fuel + 1, cs =>
    match parseJVal fuel cs with
    | none => none
    | some (v, r) =>
      match jskipWs r with
      | c :: r2 =>
        if c = ',' then (parseJArrElems fuel (jskipWs r2)).map (fun p => (v :: p.1, p.2))
        else if c = ']' then some ([v], r2)
        else none
      | [] => none

/-- Members of a nonempty JSON object (positioned at the first key). -/
def parseJObjMembers : Nat → Str → Option (List (Str × JsonVal) × Str)
  | 0, _ => none
  | fuel + 1, cs =>
    match cs with
    | c :: rest =>
      if c = dq then
        match parseJString (rest.length + 1) rest with
        | none => none
        | some (k, r) =>
          match jskipWs r with
          | d :: r2 =>
            if d = ':' then
              match parseJVal fuel (jskipWs r2) with
              | none => none
              | some (v, r3) =>
                match jskipWs r3 with
                | e :: r4 =>
                  if e = ',' then
                    (parseJObjMembers fuel (jskipWs r4)).map (fun p => ((k, v) :: p.1, p.2))
                  else if e = rcurly then some ([(k, v)], r4)
                  else none
                | [] => none
            else none
          | [] => none
      else none
    | [] => none

end

/-- Python's `json.loads` on a string: parse one value surrounded by
optional whitespace; anything left over is a decode error (`none`). -/
def jsonLoads (s : Str) : Option JsonVal :=
  match parseJVal (2 * s.length + 4) (jskipWs s) with
  | some (v, rest) => if jskipWs rest = [] then some v else none
  | none => none

end JsonModel

section Renderer

/-- The output shapes of the rendering block (spec section 3): a dataframe
or per-block table display is `Table`, the bullet loop is `BulletList`,
`st.json` is `JSONValue`, and the plain text displays (`st.text`,
`st.code`, `st.write` of a string, the fenced markdown block) are
`PreformattedText`. -/
inductive RenderedResult : Type where
  | Table (rows : List (List (Str × Str))) : RenderedResult
  | BulletList (items : List Str) : RenderedResult
  | JSONValue (value : JsonVal) : RenderedResult
  | PreformattedText (text : Str) : RenderedResult

/-- A structured (non-string) tool result: either JSON-serialisable (so
`st.json` succeeds) or not (so `st.json` raises and the catch-all fires).
`reprStr` is what Python's `str()` gives for the value. -/
inductive PyObj : Type where
  | jsonLike (value : JsonVal) (reprStr : Str) : PyObj
  | nonSerializable (reprStr : Str) : PyObj

/-- A raw tool result: a string, or an already-structured value. -/
inductive ToolResult : Type where
  | str (s : Str) : ToolResult
  | obj (o : PyObj) : ToolResult

/-- Python's `str(tool_result)`. -/
def pyStr : ToolResult → Str
  | .str s => s
  | .obj (.jsonLike _ r) => r
  | .obj (.nonSerializable r) => r

/-- Guard of app.py lines 131/310: `"meta=" in tool_result and
"content=[TextContent" in tool_result`. -/
def wrappedGuard (s : Str) : Bool :=
  strContains s (strOf "meta=") && strContains s (strOf "content=[TextContent")

/-- Guard of app.py lines 175/354: a literal backslash-n and a numbered row
marker. -/
def escapedGuard (s : Str) : Bool :=
  strContains s (strOf "\\n") && anyRowMarker s

/-- Guard of app.py lines 141/320 on the extracted text: the word "row" and
a numbered row marker. -/
def extractedRowGuard (t : Str) : Bool :=
  strContains t (strOf "row") && anyRowMarker t

/-- Guard of app.py lines 207/386: `"row" in tool_result and (": " in
tool_result or ":" in tool_result)`. -/
def sqlRowGuard (s : Str) : Bool :=
  strContains s (strOf "row") && (strContains s (strOf ": ") || strContains s (strOf ":"))

/-- One row record of the row-dump parser (app.py lines 149-155 etc.):
strip the segment, split into lines, and turn each line containing a colon
into a key/value entry of a Python dict. -/
def parseRowRecord (row : Str) : List (Str × Str) :=
  (splitChar nlChar (pyStrip row)).foldl
    (fun d line =>
      if strContains line (strOf ":") then
        let kv := splitFirst ':' line
        dictInsert d (pyStrip kv.1) (pyStrip kv.2)
      else d)
    []

/-- The row-dump display of app.py lines 144-162 / 181-199 (and the same
loops of the live block): split on the row-marker regex, drop the preamble
segment, build one record per remaining segment and show them as one table;
with at most one segment the clean text is shown as plain text
(`st.text`).  An empty record list draws nothing, modelled as the empty
table. -/
def renderEscapedRows (clean : Str) : RenderedResult :=
  let rows := splitRows clean
  if 1 < rows.length then
    let dataList := (rows.drop 1).map parseRowRecord
    if dataList = [] then .Table [] else .Table dataList
  else .PreformattedText clean

/-- Reclassification of the text extracted from the wrapped-content format
(app.py lines 141-170 / 320-349): row dump, else comma list, else plain
text via `st.write`. -/
def reclassifyExtracted (t : Str) : RenderedResult :=
  if extractedRowGuard t then
    renderEscapedRows t
  else if strContains t (strOf ",") && decide (1 < (splitChar ',' t).length) then
    .BulletList ((splitChar ',' t).map pyStrip)
  else .PreformattedText t

/-- The per-block table display of app.py lines 208-221 / 387-400: split the
raw text on a literal double newline; for each block that is nonempty after
stripping and does not start with `"Result:"`, parse every line after the
first (the block heading, shown as markdown and not part of the table data)
into one record; blocks whose record is empty draw no table. -/
def blockRecords (s : Str) : List (List (Str × Str)) :=
  (splitDoubleNl s).filterMap
    (fun row =>
      if pyStrip row ≠ [] ∧ ¬ (strOf "Result:").isPrefixOf row then
        let lines := splitChar nlChar row
        let data :=
          (lines.drop 1).foldl
            (fun d line =>
              if strContains line (strOf ":") then
                let kv := splitFirst ':' line
                dictInsert d (pyStrip kv.1) (pyStrip kv.2)
              else d)
            []
        if data = [] then none else some data
      else none)

/-- The classification cascade of app.py lines 129-232 (history block) for a
string tool result. -/
def renderStr (s : Str) : RenderedResult :=
  if wrappedGuard s then
    match reSearchTextQuoted s with
    | some extracted => reclassifyExtracted (replaceEscNl extracted)
    | none => .PreformattedText s
  else if escapedGuard s then
    renderEscapedRows (replaceEscNl s)
  else
    match jsonLoads s with
    | some v => .JSONValue v
    | none =>
      if sqlRowGuard s then .Table (blockRecords s)
      else .PreformattedText s

/-- The inner body of the history display block (app.py lines 129-232):
string results never raise in the block; a structured result is shown with
`st.json`, which raises for a non-serialisable value and is caught by the
surrounding `except`. -/
def renderToolResultInner : ToolResult → Except Str RenderedResult
  | .str s => .ok (renderStr s)
  | .obj (.jsonLike v _) => .ok (.JSONValue v)
  | .obj (.nonSerializable _) => .error (strOf "TypeError: not JSON serializable")

/-- The full history display block including the catch-all of app.py lines
230-232: on any exception the raw value's string form is shown with
`st.text`. -/
def renderToolResult (tr : ToolResult) : RenderedResult :=
  match renderToolResultInner tr with
  | .ok r => r
  | .error _ => .PreformattedText (pyStr tr)

/-- The classification cascade of app.py lines 308-411 (live block), a
verbatim copy of the history block. -/
def renderStrLive (s : Str) : RenderedResult :=
  if wrappedGuard s then
    match reSearchTextQuoted s with
    | some extracted => reclassifyExtracted (replaceEscNl extracted)
    | none => .PreformattedText s
  else if escapedGuard s then
    renderEscapedRows (replaceEscNl s)
  else
    match jsonLoads s with
    | some v => .JSONValue v
    | none =>
      if sqlRowGuard s then .Table (blockRecords s)
      else .PreformattedText s

/-- The inner body of the live display block (app.py lines 308-411). -/
def renderToolResultLiveInner : ToolResult → Except Str RenderedResult
  | .str s => .ok (renderStrLive s)
  | .obj (.jsonLike v _) => .ok (.JSONValue v)
  | .obj (.nonSerializable _) => .error (strOf "TypeError: not JSON serializable")

/-- The full live display block including its catch-all (app.py lines
409-411). -/
def renderToolResultLive (tr : ToolResult) : RenderedResult :=
  match renderToolResultLiveInner tr with
  | .ok r => r
  | .error _ => .PreformattedText (pyStr tr)

/-- Shape test used to state that a result is not a table. -/
def isTableShape : RenderedResult → Bool
  | .Table _ => true
  | _ => false

end Renderer

section Session

/-- Chat roles. -/
inductive Role : Type where
  | user : Role
  | assistant : Role

/-- One chat turn (`st.session_state.messages` entry). -/
structure ChatTurn : Type where
  role : Role
  content : Str

/-- One tool invocation record extracted from the agent result
(app.py lines 273-277). -/
structure ToolInvocation : Type where
  name : Str
  args : List (Str × JsonVal)
  result : ToolResult

/-- The session state: the chat-turn list and the parallel tool-invocation
list (`st.session_state.messages` / `st.session_state.tool_invocations`).
A `none` entry is the `None` placeholder appended for a user message. -/
structure Session : Type where
  messages : List ChatTurn
  toolInvocations : List (Option (List ToolInvocation))

/-- The initial session (app.py lines 28-33). -/
def initialSession : Session := ⟨[], []⟩

/-- Appending a user turn (app.py lines 239-240). -/
def appendUserTurn (s : Session) (prompt : Str) : Session :=
  ⟨s.messages ++ [⟨Role.user, prompt⟩], s.toolInvocations ++ [none]⟩

/-- Appending a successful assistant turn (app.py lines 288-289). -/
def appendAssistantTurn (s : Session) (text : Str) (invs : List ToolInvocation) : Session :=
  ⟨s.messages ++ [⟨Role.assistant, text⟩], s.toolInvocations ++ [some invs]⟩

/-- Appending the error-message turn (app.py lines 419-420). -/
def appendErrorTurn (s : Session) (errMsg : Str) : Session :=
  ⟨s.messages ++ [⟨Role.assistant, errMsg⟩], s.toolInvocations ++ [some []]⟩

/-- Sessions reachable from the initial state by the three mutating
operations of app.py. -/
inductive ReachableSession : Session → Prop where
  | init : ReachableSession initialSession
  | user (s : Session) (prompt : Str) :
      ReachableSession s → ReachableSession (appendUserTurn s prompt)
  | assistant (s : Session) (text : Str) (invs : List ToolInvocation) :
      ReachableSession s → ReachableSession (appendAssistantTurn s text invs)
  | error (s : Session) (errMsg : Str) :
      ReachableSession s → ReachableSession (appendErrorTurn s errMsg)

end Session

/-- A digit run immediately followed by `". row"` occurs in `cs` (the shape
matched by the row-splitting regex). -/
def containsRowPat (cs : Str) : Prop :=
  ∃ pre d ds post, cs = pre ++ d :: (ds ++ rowTail ++ post) ∧
    d.isDigit = true ∧ ∀ c ∈ ds, c.isDigit = true

section ConcreteInputs

/-- The plain comma-separated drug list of the spec. -/
def drugList : Str := strOf "metformin, lisinopril, atorvastatin"

/-- A wrapped-content tool result whose extracted text is the drug list. -/
def wrappedDrugList : Str :=
  strOf "meta=None content=[TextContent(type=" ++ [sq] ++ strOf "text" ++ [sq] ++
    strOf ", text=" ++ [sq] ++ drugList ++ [sq] ++ strOf ")]"

/-- A syntactically valid JSON string (a JSON string literal) that also
satisfies the escaped-row-dump guard: it contains a literal backslash-n and
the substring `"1. row"`. -/
def jsonRowStr : Str := strOf "\"1. row\\nx\""

/-- The two-row dump of the spec, with real newline characters. -/
def rowDumpReal : Str := strOf "1. row\n  id: 1\n  name: x\n2. row\n  id: 2\n  name: y\n"

/-- The two-row dump of the spec, with literal backslash-n escapes. -/
def rowDumpEsc : Str :=
  strOf "1. row\\n  id: 1\\n  name: x\\n2. row\\n  id: 2\\n  name: y\\n"

/-- A wrapped-content string whose quoted text contains a
backslash-escaped single quote. -/
def wrappedEscQuote : Str :=
  strOf "meta= content=[TextContent text=" ++ [sq] ++ strOf "a" ++ [bslash] ++ [sq] ++
    strOf "b" ++ [sq]

/-- A wrapped-content string whose extracted text is the JSON literal 42. -/
def wrappedFortyTwo : Str :=
  strOf "meta= content=[TextContent text=" ++ [sq] ++ strOf "42" ++ [sq]

/-- A string satisfying both the wrapped-content guard and the
escaped-row-dump guard. -/
def wrappedEscRow : Str := strOf "meta= content=[TextContent \\n 1. row"

/-- A wrapped-content string whose extracted text is "ok" (used to
exercise the extraction characterisation at a concrete first-marker
position). -/
def wrappedOk : Str :=
  strOf "meta= content=[TextContent text=" ++ [sq] ++ strOf "ok" ++ [sq]

/-- An escaped row dump without the wrapped-content markers. -/
def escRowInput : Str := strOf "\\n1. row a: b"

end ConcreteInputs

section Lemmas

/-- Characterisation of `List.isPrefixOf` on character lists. -/
theorem isPrefixOf_iff (l₁ l₂ : Str) : l₁.isPrefixOf l₂ = true ↔ ∃ t, l₂ = l₁ ++ t := by
  induction l₁ generalizing l₂ with
  | nil => simp [List.isPrefixOf]
  | cons a l ih =>
    cases l₂ with
    | nil => simp [List.isPrefixOf]
    | cons b t =>
      simp only [List.isPrefixOf, Bool.and_eq_true, beq_iff_eq, ih, List.cons_append,
        List.cons.injEq]
      constructor
      · rintro ⟨rfl, u, rfl⟩; exact ⟨u, rfl, rfl⟩
      · rintro ⟨u, rfl, rfl⟩; exact ⟨rfl, u, rfl⟩

/-- Characterisation of the Python substring test. -/
theorem strContains_iff (hay pat : Str) :
    strContains hay pat = true ↔ ∃ pre post, hay = pre ++ pat ++ post := by
  unfold strContains
  rw [List.any_eq_true]
  constructor
  · rintro ⟨i, -, hp⟩
    obtain ⟨t, ht⟩ := (isPrefixOf_iff _ _).mp hp
    exact ⟨hay.take i, t, by rw [List.append_assoc, ← ht, List.take_append_drop]⟩
  · rintro ⟨pre, post, rfl⟩
    refine ⟨pre.length, ?_, ?_⟩
    · rw [List.mem_range]
      simp [List.length_append]
      omega
    · rw [List.append_assoc, List.drop_left]
      exact (isPrefixOf_iff _ _).mpr ⟨post, rfl⟩

/-- Membership in a `takeWhile` run satisfies the predicate. -/
theorem mem_takeWhile_pred {p : Char → Bool} {a : Char} :
    ∀ {l : Str}, a ∈ List.takeWhile p l → p a = true := by
  intro l
  induction l with
  | nil => simp [List.takeWhile]
  | cons b t ih =>
    by_cases h : p b
    · simp only [List.takeWhile_cons, h, if_true, List.mem_cons]
      rintro (rfl | hm)
      · exact h
      · exact ih hm
    · simp [List.takeWhile_cons, h]

/-- Dropping while a predicate holds skips an all-satisfying block. -/
theorem dropWhile_append_all (p : Char → Bool) (l₁ l₂ : Str) (h : ∀ c ∈ l₁, p c = true) :
    List.dropWhile p (l₁ ++ l₂) = List.dropWhile p l₂ := by
  induction l₁ with
  | nil => simp
  | cons a t ih =>
    have ha : p a = true := h a (by simp)
    simp only [List.cons_append, List.dropWhile_cons, ha, if_true]
    exact ih (fun c hc => h c (by simp [hc]))

/-- Dropping a satisfying run never lengthens a list. -/
theorem length_dropWhile_le (p : Char → Bool) (l : Str) :
    (l.dropWhile p).length ≤ l.length := by
  induction l with
  | nil => simp [List.dropWhile]
  | cons a l ih =>
    by_cases h : p a
    · simp only [List.dropWhile_cons, h, if_true, List.length_cons]
      omega
    · simp [List.dropWhile_cons, h]

/-- The regex split never returns an empty segment list. -/
theorem splitRowsAux_ne_nil : ∀ (fuel : Nat) (cs acc : Str), splitRowsAux fuel cs acc ≠ [] := by
  intro fuel
  induction fuel with
  | zero => intro cs acc; simp [splitRowsAux]
  | succ n ih =>
    intro cs acc
    match cs with
    | [] => simp [splitRowsAux]
    | c :: rest =>
      rw [splitRowsAux]
      split
      · split
        · simp
        · exact ih rest (c :: acc)
      · exact ih rest (c :: acc)

/-- When the row-marker shape occurs in the text, the regex split produces
more than one segment. -/
theorem splitRowsAux_two :
    ∀ (fuel : Nat) (cs : Str), cs.length < fuel → containsRowPat cs →
      ∀ acc, 1 < (splitRowsAux fuel cs acc).length := by
  intro fuel
  induction fuel with
  | zero => intro cs hlen; omega
  | succ n ih =>
    intro cs hlen hpat acc
    obtain ⟨pre, d, ds, post, hcs, hd2, hds⟩ := hpat
    match cs, hcs with
    | _, rfl =>
      match pre with
      | [] =>
        simp only [List.nil_append]
        rw [splitRowsAux]
        have hafter : List.dropWhile Char.isDigit (d :: (ds ++ rowTail ++ post)) =
            rowTail ++ post := by
          rw [List.dropWhile_cons]
          simp only [hd2, if_true]
          rw [List.append_assoc, dropWhile_append_all Char.isDigit ds _ hds]
          rw [show rowTail ++ post = '.' :: (strOf " row" ++ post) from rfl]
          rw [List.dropWhile_cons]
          simp [show ('.' : Char).isDigit = false from by decide]
        split
        · split
          · simp only [List.length_cons]
            have := splitRowsAux_ne_nil n
              ((List.dropWhile Char.isDigit (d :: (ds ++ rowTail ++ post))).drop 5) []
            have hpos : 0 < (splitRowsAux n
                ((List.dropWhile Char.isDigit (d :: (ds ++ rowTail ++ post))).drop 5)
                []).length := List.length_pos.mpr this
            omega
          · rename_i hp
            exact absurd ((isPrefixOf_iff _ _).mpr ⟨post, by rw [hafter]⟩) hp
        · rename_i hdig
          exact absurd hd2 hdig
      | p :: pre2 =>
        simp only [List.cons_append]
        rw [splitRowsAux]
        have hrest : containsRowPat (pre2 ++ d :: (ds ++ rowTail ++ post)) :=
          ⟨pre2, d, ds, post, rfl, hd2, hds⟩
        have hlen2 : (pre2 ++ d :: (ds ++ rowTail ++ post)).length < n := by
          simp only [List.length_cons, List.length_append] at hlen ⊢
          omega
        split
        · split
          · simp only [List.length_cons]
            have := splitRowsAux_ne_nil n
              ((List.dropWhile Char.isDigit
                (p :: (pre2 ++ d :: (ds ++ rowTail ++ post)))).drop 5) []
            have hpos := List.length_pos.mpr this
            omega
          · exact ih _ hlen2 hrest _
        · exact ih _ hlen2 hrest _

/-- Unescaping copies a backslash-free block verbatim. -/
theorem replaceEscNl_pat_front (pat : Str) (hb : ∀ c ∈ pat, c ≠ bslash) :
    ∀ post, replaceEscNl (pat ++ post) = pat ++ replaceEscNl post := by
  induction pat with
  | nil => simp
  | cons a t ih =>
    intro post
    have ha : a ≠ bslash := hb a (by simp)
    rcases h : t ++ post with _ | ⟨d, rest⟩
    · obtain ⟨ht, hpost⟩ := List.append_eq_nil.mp h
      subst ht; subst hpost
      simp [replaceEscNl]
    · have : replaceEscNl (a :: t ++ post) = replaceEscNl (a :: d :: rest) := by
        rw [List.cons_append, h]
      rw [this]
      rw [show replaceEscNl (a :: d :: rest) =
        if a = bslash ∧ d = 'n' then nlChar :: replaceEscNl rest
        else a :: replaceEscNl (d :: rest) from rfl]
      rw [if_neg (fun hc => ha hc.1), ← h]
      rw [ih (fun c hc => hb c (by simp [hc])) post]
      simp

/-- Unescaping preserves any occurrence of a block free of backslashes and
of the letter n. -/
theorem replaceEscNl_append_pat (pat : Str) (hb : ∀ c ∈ pat, c ≠ bslash)
    (hn : ∀ c ∈ pat, c ≠ 'n') :
    ∀ pre post, ∃ pre2 post2, replaceEscNl (pre ++ pat ++ post) = pre2 ++ pat ++ post2 := by
  rcases hpat : pat with _ | ⟨q0, patT⟩
  · exact fun pre post => ⟨replaceEscNl (pre ++ [] ++ post), [], by simp⟩
  · subst hpat
    have hq0n : q0 ≠ 'n' := hn q0 (by simp)
    have main : ∀ (n : Nat) (pre : Str), pre.length ≤ n → ∀ post, ∃ pre2 post2,
        replaceEscNl (pre ++ (q0 :: patT) ++ post) = pre2 ++ (q0 :: patT) ++ post2 := by
      intro n
      induction n with
      | zero =>
        intro pre hlen post
        have h0 : pre = [] := List.eq_nil_of_length_eq_zero (Nat.le_zero.mp hlen)
        subst h0
        exact ⟨[], replaceEscNl post, by simpa using replaceEscNl_pat_front _ hb post⟩
      | succ n ih =>
        intro pre hlen post
        match pre with
        | [] =>
          exact ⟨[], replaceEscNl post, by simpa using replaceEscNl_pat_front _ hb post⟩
        | [a] =>
          refine ⟨[a], replaceEscNl post, ?_⟩
          have h1 : [a] ++ (q0 :: patT) ++ post = a :: q0 :: (patT ++ post) := by simp
          rw [h1]
          rw [show replaceEscNl (a :: q0 :: (patT ++ post)) =
            if a = bslash ∧ q0 = 'n' then nlChar :: replaceEscNl (patT ++ post)
            else a :: replaceEscNl (q0 :: (patT ++ post)) from rfl]
          rw [if_neg (fun hc => hq0n hc.2)]
          rw [show q0 :: (patT ++ post) = (q0 :: patT) ++ post from rfl]
          rw [replaceEscNl_pat_front _ hb post]
          simp
        | a :: b :: pre2 =>
          have h1 : (a :: b :: pre2) ++ (q0 :: patT) ++ post =
              a :: b :: (pre2 ++ (q0 :: patT) ++ post) := by simp
          rw [h1]
          rw [show replaceEscNl (a :: b :: (pre2 ++ (q0 :: patT) ++ post)) =
            if a = bslash ∧ b = 'n' then nlChar :: replaceEscNl (pre2 ++ (q0 :: patT) ++ post)
            else a :: replaceEscNl (b :: (pre2 ++ (q0 :: patT) ++ post)) from rfl]
          by_cases hc : a = bslash ∧ b = 'n'
          · rw [if_pos hc]
            obtain ⟨pre3, post3, hp⟩ := ih pre2 (by simp at hlen; omega) post
            exact ⟨nlChar :: pre3, post3, by rw [hp]; simp⟩
          · rw [if_neg hc]
            obtain ⟨pre3, post3, hp⟩ := ih (b :: pre2) (by simp at hlen ⊢; omega) post
            refine ⟨a :: pre3, post3, ?_⟩
            rw [show b :: (pre2 ++ (q0 :: patT) ++ post) =
              (b :: pre2) ++ (q0 :: patT) ++ post from by simp]
            rw [hp]
            simp
    exact fun pre post => main pre.length pre le_rfl post

/-- Every character of the unescaped text is a character of the source or a
newline. -/
theorem mem_replaceEscNl :
    ∀ (l : Str) (c : Char), c ∈ replaceEscNl l → c ∈ l ∨ c = nlChar := by
  have main : ∀ (n : Nat) (l : Str), l.length ≤ n → ∀ c, c ∈ replaceEscNl l →
      c ∈ l ∨ c = nlChar := by
    intro n
    induction n with
    | zero =>
      intro l hlen c hc
      have h0 : l = [] := List.eq_nil_of_length_eq_zero (Nat.le_zero.mp hlen)
      subst h0
      simp [replaceEscNl] at hc
    | succ n ih =>
      intro l hlen c hc
      match l with
      | [] => simp [replaceEscNl] at hc
      | [a] =>
        simp only [replaceEscNl] at hc
        exact Or.inl hc
      | a :: b :: rest =>
        rw [show replaceEscNl (a :: b :: rest) =
          if a = bslash ∧ b = 'n' then nlChar :: replaceEscNl rest
          else a :: replaceEscNl (b :: rest) from rfl] at hc
        by_cases hcnd : a = bslash ∧ b = 'n'
        · rw [if_pos hcnd] at hc
          rcases List.mem_cons.mp hc with rfl | hm
          · exact Or.inr rfl
          · rcases ih rest (by simp at hlen; omega) c hm with h | h
            · exact Or.inl (by simp [h])
            · exact Or.inr h
        · rw [if_neg hcnd] at hc
          rcases List.mem_cons.mp hc with rfl | hm
          · exact Or.inl (by simp)
          · rcases ih (b :: rest) (by simp at hlen ⊢; omega) c hm with h | h
            · exact Or.inl (by simp at h; rcases h with h | h <;> simp [h])
            · exact Or.inr h
  exact fun l c hc => main l.length l le_rfl c hc

/-- A marker position in the tail shifts by one. -/
theorem markerAt_cons (c : Char) (rest : Str) (p : Nat) :
    markerAt (c :: rest) (p + 1) = markerAt rest p := by
  simp [markerAt, List.drop_succ_cons]

/-- The scan returns nothing when the pattern occurs nowhere. -/
theorem reSearch_none_of_no_marker :
    ∀ (s : Str), (∀ q, markerAt s q = false) → reSearchTextQuoted s = none := by
  intro s
  induction s with
  | nil => intro _; simp [reSearchTextQuoted]
  | cons c rest ih =>
    intro h
    have h0 : textPat.isPrefixOf (c :: rest) = false := by
      have := h 0
      simpa [markerAt] using this
    rw [show reSearchTextQuoted (c :: rest) =
      if textPat.isPrefixOf (c :: rest) then
        (if ((c :: rest).drop 6).any (fun d => d = sq) then
          some (((c :: rest).drop 6).takeWhile (fun d => d ≠ sq))
        else reSearchTextQuoted rest)
      else reSearchTextQuoted rest from rfl]
    rw [h0]
    simp only [Bool.false_eq_true, if_false]
    exact ih (fun q => by rw [← markerAt_cons c rest q]; exact h (q + 1))

/-- A marker anywhere past the start puts a single quote into the tail
dropped after the first marker. -/
theorem sq_mem_of_marker (s : Str) (m : Nat) (hm : markerAt s m = true) (h1 : 1 ≤ m) :
    sq ∈ s.drop 6 := by
  obtain ⟨tail, htail⟩ := (isPrefixOf_iff _ _).mp hm
  have h5 : s.drop (m + 5) = sq :: tail := by
    rw [← List.drop_drop 5 m s, htail]
    rfl
  have hsub : (s.drop 6).drop (m + 5 - 6) = s.drop (m + 5) := by
    rw [List.drop_drop]
    congr 1
    omega
  have : sq ∈ (s.drop 6).drop (m + 5 - 6) := by
    rw [hsub, h5]; simp
  exact List.drop_subset _ _ this

/-- The scan finds the first marker position: if a closing quote follows it,
the capture is everything up to that quote; otherwise the search fails. -/
theorem reSearch_at_first :
    ∀ (s : Str) (p : Nat), markerAt s p = true → (∀ q, q < p → markerAt s q = false) →
    reSearchTextQuoted s =
      (if (s.drop (p + 6)).any (fun d => d = sq) then
        some ((s.drop (p + 6)).takeWhile (fun d => d ≠ sq))
      else none) := by
  intro s
  induction s with
  | nil =>
    intro p hp _
    exact absurd hp (by simp [markerAt, textPat, List.isPrefixOf])
  | cons c rest ih =>
    intro p hp hmin
    rw [show reSearchTextQuoted (c :: rest) =
      if textPat.isPrefixOf (c :: rest) then
        (if ((c :: rest).drop 6).any (fun d => d = sq) then
          some (((c :: rest).drop 6).takeWhile (fun d => d ≠ sq))
        else reSearchTextQuoted rest)
      else reSearchTextQuoted rest from rfl]
    cases p with
    | zero =>
      have h0 : textPat.isPrefixOf (c :: rest) = true := by simpa [markerAt] using hp
      rw [h0]
      simp only [if_true]
      by_cases hq : ((c :: rest).drop 6).any (fun d => d = sq) = true
      · rw [if_pos hq, if_pos (by simpa using hq)]
      · rw [if_neg hq, if_neg (by simpa using hq)]
        apply reSearch_none_of_no_marker
        intro q
        by_contra hmq
        have hmq' : markerAt rest q = true := by
          cases h : markerAt rest q
          · exact absurd h hmq
          · rfl
        have : markerAt (c :: rest) (q + 1) = true := by
          rw [markerAt_cons]; exact hmq'
        have hsq : sq ∈ (c :: rest).drop 6 := sq_mem_of_marker _ (q + 1) this (by omega)
        have : ((c :: rest).drop 6).any (fun d => d = sq) = true :=
          List.any_eq_true.mpr ⟨sq, hsq, by simp⟩
        exact hq this
    | succ p' =>
      have h0 : textPat.isPrefixOf (c :: rest) = false := by
        have := hmin 0 (by omega)
        simpa [markerAt] using this
      rw [h0]
      simp only [Bool.false_eq_true, if_false]
      have hp' : markerAt rest p' = true := by rw [← markerAt_cons c]; exact hp
      have hmin' : ∀ q, q < p' → markerAt rest q = false := by
        intro q hq
        rw [← markerAt_cons c]
        exact hmin (q + 1) (by omega)
      rw [ih p' hp' hmin']
      rw [show (c :: rest).drop (p' + 1 + 6) = rest.drop (p' + 6) from by
        rw [show p' + 1 + 6 = (p' + 6) + 1 from by omega, List.drop_succ_cons]]

/-- A successful scan captures no single quote. -/
theorem reSearch_some_quotefree :
    ∀ (s e : Str), reSearchTextQuoted s = some e → ∀ c ∈ e, c ≠ sq := by
  intro s
  induction s with
  | nil => intro e he; simp [reSearchTextQuoted] at he
  | cons c rest ih =>
    intro e he
    rw [show reSearchTextQuoted (c :: rest) =
      if textPat.isPrefixOf (c :: rest) then
        (if ((c :: rest).drop 6).any (fun d => d = sq) then
          some (((c :: rest).drop 6).takeWhile (fun d => d ≠ sq))
        else reSearchTextQuoted rest)
      else reSearchTextQuoted rest from rfl] at he
    by_cases h0 : textPat.isPrefixOf (c :: rest) = true
    · rw [if_pos h0] at he
      by_cases hq : ((c :: rest).drop 6).any (fun d => d = sq) = true
      · rw [if_pos hq] at he
        obtain rfl : ((c :: rest).drop 6).takeWhile (fun d => d ≠ sq) = e :=
          Option.some.injEq _ _ ▸ he
        intro x hx
        have := mem_takeWhile_pred hx
        simpa using this
      · rw [if_neg hq] at he
        exact ih e he
    · rw [if_neg h0] at he
      exact ih e he

/-- A string without single quotes cannot match the search pattern. -/
theorem reSearch_none_of_no_sq (t : Str) (h : sq ∉ t) : reSearchTextQuoted t = none := by
  apply reSearch_none_of_no_marker
  intro q
  by_contra hm
  have hm' : markerAt t q = true := by
    cases hmm : markerAt t q
    · exact absurd hmm hm
    · rfl
  obtain ⟨tail, htail⟩ := (isPrefixOf_iff _ _).mp hm'
  have : sq ∈ t.drop q := by rw [htail]; simp [textPat]
  exact h (List.drop_subset _ _ this)

/-- The one or two characters of each numbered marker head are digits and
are neither a backslash nor the letter n. -/
theorem numPatHeadFacts : ∀ j, j < 10 → (toString (j + 1)).data ≠ [] ∧
    ∀ c ∈ (toString (j + 1)).data, c.isDigit = true ∧ c ≠ bslash ∧ c ≠ 'n' := by
  decide

/-- The marker tail contains no backslash and no letter n. -/
theorem rowTailFacts : ∀ c ∈ strOf ". row", c ≠ bslash ∧ c ≠ 'n' := by
  decide

/-- Unfolding of the numbered-marker guard. -/
theorem rowMarker_decomp (s : Str) (h : anyRowMarker s = true) :
    ∃ j, j < 10 ∧ strContains s (numPat (j + 1)) = true := by
  unfold anyRowMarker at h
  rw [List.any_eq_true] at h
  obtain ⟨j, hj, hc⟩ := h
  exact ⟨j, List.mem_range.mp hj, hc⟩

/-- A numbered marker contains the word "row". -/
theorem anyRowMarker_row (t : Str) (h : anyRowMarker t = true) :
    strContains t (strOf "row") = true := by
  obtain ⟨j, hj, hc⟩ := rowMarker_decomp t h
  obtain ⟨pre, post, rfl⟩ := (strContains_iff _ _).mp hc
  refine (strContains_iff _ _).mpr ⟨pre ++ (toString (j + 1)).data ++ ['.', ' '], post, ?_⟩
  have hsplit : strOf ". row" = ['.', ' '] ++ strOf "row" := rfl
  simp only [numPat, hsplit, List.append_assoc]

/-- The numbered-marker guard survives unescaping. -/
theorem anyRowMarker_replaceEscNl (s : Str) (h : anyRowMarker s = true) :
    anyRowMarker (replaceEscNl s) = true := by
  obtain ⟨j, hj, hc⟩ := rowMarker_decomp s h
  obtain ⟨pre, post, heq⟩ := (strContains_iff _ _).mp hc
  obtain ⟨-, hall⟩ := numPatHeadFacts j hj
  have hb : ∀ c ∈ numPat (j + 1), c ≠ bslash := by
    intro c hcm
    rcases List.mem_append.mp hcm with h1 | h1
    · exact (hall c h1).2.1
    · exact (rowTailFacts c h1).1
  have hn : ∀ c ∈ numPat (j + 1), c ≠ 'n' := by
    intro c hcm
    rcases List.mem_append.mp hcm with h1 | h1
    · exact (hall c h1).2.2
    · exact (rowTailFacts c h1).2
  obtain ⟨pre2, post2, heq2⟩ := replaceEscNl_append_pat (numPat (j + 1)) hb hn pre post
  have hcont : strContains (replaceEscNl s) (numPat (j + 1)) = true := by
    rw [heq]
    exact (strContains_iff _ _).mpr ⟨pre2, post2, heq2⟩
  unfold anyRowMarker
  rw [List.any_eq_true]
  exact ⟨j, List.mem_range.mpr hj, hcont⟩

/-- A numbered marker realises the row-pattern shape of the split regex. -/
theorem anyRowMarker_containsRowPat (cs : Str) (h : anyRowMarker cs = true) :
    containsRowPat cs := by
  obtain ⟨j, hj, hc⟩ := rowMarker_decomp cs h
  obtain ⟨pre, post, heq⟩ := (strContains_iff _ _).mp hc
  obtain ⟨hne, hall⟩ := numPatHeadFacts j hj
  rcases hdata : (toString (j + 1)).data with _ | ⟨d, ds⟩
  · exact absurd hdata hne
  · refine ⟨pre, d, ds, post, ?_, ?_, ?_⟩
    · rw [heq]
      simp only [numPat, hdata, rowTail, List.cons_append, List.append_assoc]
    · exact (hall d (by rw [hdata]; simp)).1
    · exact fun c hcm => (hall c (by rw [hdata]; simp [hcm])).1

/-- A numbered marker forces the regex split to produce more than one
segment. -/
theorem splitRows_two (cs : Str) (h : anyRowMarker cs = true) :
    1 < (splitRows cs).length :=
  splitRowsAux_two (cs.length + 1) cs (by omega)
    (anyRowMarker_containsRowPat cs h) []

/-- On text containing a numbered marker the row-dump display always
produces the (nonempty) table, never the plain-text fallback. -/
theorem renderEscapedRows_of_marker (clean : Str) (h : anyRowMarker clean = true) :
    ((splitRows clean).drop 1).map parseRowRecord ≠ [] ∧
    renderEscapedRows clean = .Table (((splitRows clean).drop 1).map parseRowRecord) := by
  have hsplit := splitRows_two clean h
  have hne : ((splitRows clean).drop 1).map parseRowRecord ≠ [] := by
    intro hnil
    rw [List.map_eq_nil_iff] at hnil
    have := congrArg List.length hnil
    simp only [List.length_drop, List.length_nil] at this
    omega
  refine ⟨hne, ?_⟩
  unfold renderEscapedRows
  rw [if_pos hsplit, if_neg hne]

end Lemmas

section Claims

/-- C1: for every raw tool result value the rendering never raises: the
display block always produces exactly one `RenderedResult`, and whenever the
inner body fails (e.g. `st.json` on a non-serialisable value) the catch-all
falls back to showing the raw value's string form as plain text. -/
theorem c1_renderer_total_with_fallback (tr : ToolResult) :
    (∀ e, renderToolResultInner tr = .error e →
      renderToolResult tr = .PreformattedText (pyStr tr)) ∧
    (∀ r, renderToolResultInner tr = .ok r → renderToolResult tr = r) := by
  constructor
  · intro e he
    simp [renderToolResult, he]
  · intro r hr
    simp [renderToolResult, hr]

/-- Witness for C1 at a non-serialisable structured result. -/
theorem c1_witness :
    renderToolResultInner (.obj (.nonSerializable (strOf "<MCPObject>"))) =
      .error (strOf "TypeError: not JSON serializable") ∧
    renderToolResult (.obj (.nonSerializable (strOf "<MCPObject>"))) =
      .PreformattedText (strOf "<MCPObject>") :=
  ⟨rfl, (c1_renderer_total_with_fallback (.obj (.nonSerializable (strOf "<MCPObject>")))).1 _ rfl⟩

/-- C2 counterexample: the literal plain string
"metformin, lisinopril, atorvastatin" is NOT rendered as a bullet list; the
plain-string path has no comma branch and falls through to the fenced code
block. -/
theorem c2_counterexample :
    renderToolResult (.str drugList) ≠
      .BulletList [strOf "metformin", strOf "lisinopril", strOf "atorvastatin"] := by
  intro h
  rw [show renderToolResult (.str drugList) = .PreformattedText drugList from rfl] at h
  exact RenderedResult.noConfusion h

/-- C2 (amended): the comma-list rule applies only to text extracted from
the wrapped-content format; for a wrapped result whose extracted text is
the drug list, the renderer returns the bullet list of the three trimmed
names, and in general extracted text that escapes the row-dump rule,
contains a comma and splits into more than one non-trivial segment is
rendered as the bullet list of all trimmed segments in order. -/
theorem c2_comma_list_amended :
    renderToolResult (.str wrappedDrugList) =
      .BulletList [strOf "metformin", strOf "lisinopril", strOf "atorvastatin"] ∧
    ∀ t : Str, extractedRowGuard t = false → strContains t (strOf ",") = true →
      1 < ((splitChar ',' t).filter (fun seg => !(pyStrip seg).isEmpty)).length →
      reclassifyExtracted t = .BulletList ((splitChar ',' t).map pyStrip) := by
  refine ⟨rfl, ?_⟩
  intro t hrow hcomma hseg
  have hlen : 1 < (splitChar ',' t).length :=
    lt_of_lt_of_le hseg (List.length_filter_le _ _)
  unfold reclassifyExtracted
  rw [hrow]
  simp only [Bool.false_eq_true, if_false]
  rw [if_pos]
  rw [hcomma, Bool.true_and]
  simp [hlen]

/-- Witness for C2's general comma-list part. -/
theorem c2_witness :
    reclassifyExtracted (strOf "a, b") = .BulletList [strOf "a", strOf "b"] :=
  c2_comma_list_amended.2 (strOf "a, b") (by decide) (by decide) (by decide)

/-- C3 counterexample: a syntactically valid JSON string (a JSON string
literal containing a literal backslash-n and "1. row") is captured by the
escaped-row-dump branch before JSON parsing is ever attempted, so it is not
rendered as its parsed JSON value. -/
theorem c3_counterexample :
    jsonLoads jsonRowStr = some (JsonVal.jstr (strOf "1. row\nx")) ∧
    renderToolResult (.str jsonRowStr) ≠
      .JSONValue (JsonVal.jstr (strOf "1. row\nx")) := by
  refine ⟨rfl, ?_⟩
  intro h
  rw [show renderToolResult (.str jsonRowStr) = .Table [[]] from rfl] at h
  exact RenderedResult.noConfusion h

/-- C3 (amended): for every valid JSON string that matches neither the
wrapped-content guard nor the escaped-row-dump guard, the renderer returns
the parsed JSON value. -/
theorem c3_json_roundtrip_amended (s : Str) (v : JsonVal)
    (hw : wrappedGuard s = false) (he : escapedGuard s = false)
    (hj : jsonLoads s = some v) :
    renderToolResult (.str s) = .JSONValue v := by
  show renderStr s = _
  simp only [renderStr, hw, he, hj, Bool.false_eq_true, if_false]

/-- Witness for C3 at the JSON array "[1, 2]". -/
theorem c3_witness :
    renderToolResult (.str (strOf "[1, 2]")) =
      .JSONValue (JsonVal.jarr [JsonVal.jnum (strOf "1"), JsonVal.jnum (strOf "2")]) :=
  c3_json_roundtrip_amended _ _ (by rfl) (by rfl) (by rfl)

/-- C4 counterexample: with real newline characters the row dump is NOT
split on the "N. row" markers; the blank-line-split path produces a single
record in which later duplicate keys have overwritten earlier ones. -/
theorem c4_counterexample :
    renderToolResult (.str rowDumpReal) ≠
      .Table [[(strOf "id", strOf "1"), (strOf "name", strOf "x")],
              [(strOf "id", strOf "2"), (strOf "name", strOf "y")]] := by
  intro h
  rw [show renderToolResult (.str rowDumpReal) =
    .Table [[(strOf "id", strOf "2"), (strOf "name", strOf "y")]] from rfl] at h
  injection h with h2
  exact absurd h2 (by decide)

/-- C4 (amended): the claimed two-record table is produced for the
escaped-newline form of the dump (the escaped-row-dump branch); the
real-newline form goes through the blank-line-split path and yields the
single overwritten record. -/
theorem c4_row_blocks_amended :
    renderToolResult (.str rowDumpEsc) =
      .Table [[(strOf "id", strOf "1"), (strOf "name", strOf "x")],
              [(strOf "id", strOf "2"), (strOf "name", strOf "y")]] ∧
    renderToolResult (.str rowDumpReal) =
      .Table [[(strOf "id", strOf "2"), (strOf "name", strOf "y")]] :=
  ⟨rfl, rfl⟩

/-- C5 counterexample: the marker-free string "true" is valid JSON and is
rendered as a JSON value, not as preformatted text equal to the trimmed
input. -/
theorem c5_counterexample :
    renderToolResult (.str (strOf "true")) ≠ .PreformattedText (pyStrip (strOf "true")) := by
  intro h
  rw [show renderToolResult (.str (strOf "true")) =
    .JSONValue (JsonVal.jbool true) from rfl] at h
  exact RenderedResult.noConfusion h

/-- C5 (amended): a string with no comma, no colon, no numbered row marker
and no wrapped-content markers that moreover fails JSON parsing is rendered
as preformatted text equal to the input itself (the code does not trim
it). -/
theorem c5_plain_fallback_amended (s : Str)
    (hw : wrappedGuard s = false)
    (hcomma : strContains s (strOf ",") = false)
    (hcolon : strContains s (strOf ":") = false)
    (hmark : anyRowMarker s = false)
    (hj : jsonLoads s = none) :
    renderToolResult (.str s) = .PreformattedText s := by
  have he : escapedGuard s = false := by
    unfold escapedGuard
    rw [hmark]
    simp
  have hcs : strContains s (strOf ": ") = false := by
    cases hx : strContains s (strOf ": ") with
    | false => rfl
    | true =>
      exfalso
      obtain ⟨pre, post, hdec⟩ := (strContains_iff _ _).mp hx
      have h1 : strOf ": " = [':', ' '] := rfl
      have h2 : s = pre ++ strOf ":" ++ (' ' :: post) := by
        rw [hdec, h1]
        simp [strOf]
      have : strContains s (strOf ":") = true :=
        (strContains_iff _ _).mpr ⟨pre, ' ' :: post, h2⟩
      rw [this] at hcolon
      cases hcolon
  have hsql : sqlRowGuard s = false := by
    unfold sqlRowGuard
    rw [hcs, hcolon]
    simp
  show renderStr s = _
  simp only [renderStr, hw, he, hj, hsql, Bool.false_eq_true, if_false]

/-- Witness for C5. -/
theorem c5_witness :
    renderToolResult (.str (strOf "adverse events of metformin")) =
      .PreformattedText (strOf "adverse events of metformin") :=
  c5_plain_fallback_amended _ (by rfl) (by rfl) (by rfl) (by rfl) (by rfl)

/-- C6 counterexample: the regex `[^']*` stops at the first single quote
even when that quote is preceded by a backslash, so the extraction is NOT
"up to the first unescaped closing quote": for a quoted text containing a
backslash-escaped quote the renderer shows only the part before that
quote. -/
theorem c6_counterexample :
    renderToolResult (.str wrappedEscQuote) ≠
      .PreformattedText (strOf "a" ++ [bslash] ++ [sq] ++ strOf "b") := by
  intro h
  rw [show renderToolResult (.str wrappedEscQuote) =
    .PreformattedText (strOf "a" ++ [bslash]) from rfl] at h
  injection h with h2
  exact absurd h2 (by decide)

/-- C6 (amended): for every wrapped-content string, the extracted inner
text is exactly the characters following the first `text='` marker up to
the first closing single quote (escaped or not); the extracted text has its
literal backslash-n pairs turned into line breaks and is reclassified by
rules 3-5; when the pattern does not match (no marker, or no closing quote
after the first marker) the renderer returns the original string as
preformatted text. -/
theorem c6_extraction_amended (s : Str) (hw : wrappedGuard s = true) :
    (∀ p, markerAt s p = true → (∀ q, q < p → markerAt s q = false) →
      (((s.drop (p + 6)).any (fun d => d = sq) = true →
        renderToolResult (.str s) =
          reclassifyExtracted
            (replaceEscNl ((s.drop (p + 6)).takeWhile (fun d => d ≠ sq)))) ∧
      ((s.drop (p + 6)).any (fun d => d = sq) = false →
        renderToolResult (.str s) = .PreformattedText s))) ∧
    ((∀ q, markerAt s q = false) → renderToolResult (.str s) = .PreformattedText s) := by
  constructor
  · intro p hp hmin
    have hscan := reSearch_at_first s p hp hmin
    constructor
    · intro hq
      rw [hq] at hscan
      simp only [if_true] at hscan
      show renderStr s = _
      simp only [renderStr, hw, if_true, hscan]
    · intro hq
      rw [hq] at hscan
      simp only [Bool.false_eq_true, if_false] at hscan
      show renderStr s = _
      simp only [renderStr, hw, if_true, hscan]
  · intro hnone
    have hscan := reSearch_none_of_no_marker s hnone
    show renderStr s = _
    simp only [renderStr, hw, if_true, hscan]

/-- Witness for C6 at a wrapped string whose first marker sits at position
27 with a closing quote present. -/
theorem c6_witness :
    renderToolResult (.str wrappedOk) =
      reclassifyExtracted
        (replaceEscNl ((wrappedOk.drop (27 + 6)).takeWhile (fun d => d ≠ sq))) :=
  ((c6_extraction_amended wrappedOk (by decide)).1 27 (by decide) (by decide)).1 (by decide)

/-- C7: after every session-mutating operation the chat-turn sequence and
the tool-invocation sequence have the same length (the two parallel lists
are always extended together). -/
theorem c7_parallel_sequences (s : Session) (h : ReachableSession s) :
    s.messages.length = s.toolInvocations.length := by
  induction h with
  | init => rfl
  | user s prompt _ ih => simp [appendUserTurn, ih]
  | assistant s text invs _ ih => simp [appendAssistantTurn, ih]
  | error s errMsg _ ih => simp [appendErrorTurn, ih]

/-- Witness for C7 after a user turn followed by an assistant turn. -/
theorem c7_witness :
    (appendAssistantTurn (appendUserTurn initialSession (strOf "hi"))
      (strOf "ok") []).messages.length =
    (appendAssistantTurn (appendUserTurn initialSession (strOf "hi"))
      (strOf "ok") []).toolInvocations.length :=
  c7_parallel_sequences _
    (ReachableSession.assistant _ _ _ (ReachableSession.user _ _ ReachableSession.init))

/-- C8: classification is a pure function of the raw value; in particular
the two verbatim display blocks (history path, lines 128-232, and live
path, lines 307-412) render every value identically, so repeated
invocations in any order agree. -/
theorem c8_deterministic_pure (tr : ToolResult) :
    renderToolResult tr = renderToolResultLive tr := by
  cases tr with
  | str s => rfl
  | obj o => cases o <;> rfl

/-- C9 counterexample: rendering the wrapped result extracts "42" and shows
it as preformatted text, but rendering the text "42" again parses it as
JSON, so rendering is not idempotent on preformatted output. -/
theorem c9_counterexample :
    renderToolResult (.str wrappedFortyTwo) = .PreformattedText (strOf "42") ∧
    renderToolResult (.str (strOf "42")) ≠ .PreformattedText (strOf "42") := by
  refine ⟨rfl, ?_⟩
  intro h
  rw [show renderToolResult (.str (strOf "42")) =
    .JSONValue (JsonVal.jnum (strOf "42")) from rfl] at h
  exact RenderedResult.noConfusion h

/-- C9 (amended): for every string input rendered as `PreformattedText t`,
if `t` is not itself valid JSON and does not satisfy the row/colon guard of
the blank-line table path, then rendering `t` again yields
`PreformattedText t` with the same text. -/
theorem c9_idempotent_amended (s t : Str)
    (hren : renderToolResult (.str s) = .PreformattedText t)
    (hj : jsonLoads t = none)
    (hsql : sqlRowGuard t = false) :
    renderToolResult (.str t) = .PreformattedText t := by
  have hren' : renderStr s = .PreformattedText t := hren
  unfold renderStr at hren'
  by_cases hw : wrappedGuard s = true
  · rw [hw] at hren'
    simp only [if_true] at hren'
    cases hscan : reSearchTextQuoted s with
    | none =>
      rw [hscan] at hren'
      have hren2 : RenderedResult.PreformattedText s = .PreformattedText t := hren'
      injection hren2 with h2
      subst h2
      exact hren
    | some e =>
      rw [hscan] at hren'
      have hren2 : reclassifyExtracted (replaceEscNl e) = .PreformattedText t := hren'
      unfold reclassifyExtracted at hren2
      by_cases hrg : extractedRowGuard (replaceEscNl e) = true
      · rw [hrg] at hren2
        simp only [if_true] at hren2
        exfalso
        have hmark : anyRowMarker (replaceEscNl e) = true := by
          unfold extractedRowGuard at hrg
          rw [Bool.and_eq_true] at hrg
          exact hrg.2
        obtain ⟨-, htab⟩ := renderEscapedRows_of_marker _ hmark
        rw [htab] at hren2
        exact RenderedResult.noConfusion hren2
      · rw [Bool.not_eq_true] at hrg
        rw [hrg] at hren2
        simp only [Bool.false_eq_true, if_false] at hren2
        by_cases hbc : (strContains (replaceEscNl e) (strOf ",") &&
            decide (1 < (splitChar ',' (replaceEscNl e)).length)) = true
        · rw [hbc] at hren2
          simp only [if_true] at hren2
          exact absurd hren2 (by intro hx; exact RenderedResult.noConfusion hx)
        · rw [Bool.not_eq_true] at hbc
          rw [hbc] at hren2
          simp only [Bool.false_eq_true, if_false] at hren2
          injection hren2 with h2
          subst h2
          have hsq : sq ∉ replaceEscNl e := by
            intro hmem
            rcases mem_replaceEscNl e sq hmem with hin | hnl
            · exact (reSearch_some_quotefree s e hscan sq hin) rfl
            · exact absurd hnl (by decide)
          show renderStr (replaceEscNl e) = _
          unfold renderStr
          have hmarkf : anyRowMarker (replaceEscNl e) = false := by
            cases hmm : anyRowMarker (replaceEscNl e) with
            | false => rfl
            | true =>
              exfalso
              have hrowc := anyRowMarker_row _ hmm
              have hgt : extractedRowGuard (replaceEscNl e) = true := by
                unfold extractedRowGuard
                rw [hrowc, hmm]
                rfl
              rw [hgt] at hrg
              cases hrg
          have hescf : escapedGuard (replaceEscNl e) = false := by
            unfold escapedGuard
            rw [hmarkf]
            simp
          by_cases hw2 : wrappedGuard (replaceEscNl e) = true
          · rw [hw2]
            simp only [if_true]
            rw [reSearch_none_of_no_sq _ hsq]
          · rw [Bool.not_eq_true] at hw2
            rw [hw2]
            simp only [Bool.false_eq_true, if_false]
            rw [hescf]
            simp only [Bool.false_eq_true, if_false]
            rw [hj, hsql]
            simp
  · rw [Bool.not_eq_true] at hw
    rw [hw] at hren'
    simp only [Bool.false_eq_true, if_false] at hren'
    by_cases hesc : escapedGuard s = true
    · rw [hesc] at hren'
      simp only [if_true] at hren'
      exfalso
      have hmark : anyRowMarker s = true := by
        unfold escapedGuard at hesc
        rw [Bool.and_eq_true] at hesc
        exact hesc.2
      have hmark2 := anyRowMarker_replaceEscNl s hmark
      obtain ⟨-, htab⟩ := renderEscapedRows_of_marker _ hmark2
      rw [htab] at hren'
      exact RenderedResult.noConfusion hren'
    · rw [Bool.not_eq_true] at hesc
      rw [hesc] at hren'
      simp only [Bool.false_eq_true, if_false] at hren'
      cases hjs : jsonLoads s with
      | some v =>
        rw [hjs] at hren'
        have hren2 : RenderedResult.JSONValue v = .PreformattedText t := hren'
        exact absurd hren2 (by intro hx; exact RenderedResult.noConfusion hx)
      | none =>
        rw [hjs] at hren'
        have hren2 : (if sqlRowGuard s = true then RenderedResult.Table (blockRecords s)
            else RenderedResult.PreformattedText s) = .PreformattedText t := hren'
        by_cases hsq2 : sqlRowGuard s = true
        · rw [hsq2] at hren2
          simp only [if_true] at hren2
          exact absurd hren2 (by intro hx; exact RenderedResult.noConfusion hx)
        · rw [Bool.not_eq_true] at hsq2
          rw [hsq2] at hren2
          simp only [Bool.false_eq_true, if_false] at hren2
          injection hren2 with h2
          subst h2
          exact hren

/-- Witness for C9 at a plain text result. -/
theorem c9_witness :
    renderToolResult (.str (strOf "no structured output")) =
      .PreformattedText (strOf "no structured output") :=
  c9_idempotent_amended (strOf "no structured output") _ rfl (by rfl) (by rfl)

/-- C10 counterexample: a string satisfying the escaped-row-dump guard that
also contains the wrapped-content markers is captured by the
wrapped-content branch and rendered as preformatted text, not as a
table. -/
theorem c10_counterexample :
    escapedGuard wrappedEscRow = true ∧
    isTableShape (renderToolResult (.str wrappedEscRow)) = false :=
  ⟨by decide, rfl⟩

/-- C10 (amended): for every string satisfying the escaped-row-dump guard
and not the wrapped-content guard, splitting the unescaped text on the
row-marker regex yields more than one segment, so the plain-text fallback
of that branch is unreachable and the input is rendered as a (nonempty)
table. -/
theorem c10_escaped_rows_amended (s : Str)
    (hw : wrappedGuard s = false) (hesc : escapedGuard s = true) :
    1 < (splitRows (replaceEscNl s)).length ∧
    ∃ rows, rows ≠ [] ∧ renderToolResult (.str s) = .Table rows := by
  have hmark : anyRowMarker s = true := by
    unfold escapedGuard at hesc
    rw [Bool.and_eq_true] at hesc
    exact hesc.2
  have hmark2 := anyRowMarker_replaceEscNl s hmark
  obtain ⟨hne, htab⟩ := renderEscapedRows_of_marker _ hmark2
  refine ⟨splitRows_two _ hmark2, _, hne, ?_⟩
  show renderStr s = _
  unfold renderStr
  rw [hw]
  simp only [Bool.false_eq_true, if_false]
  rw [hesc]
  simp only [if_true]
  exact htab

/-- Witness for C10. -/
theorem c10_witness :
    1 < (splitRows (replaceEscNl escRowInput)).length ∧
    ∃ rows, rows ≠ [] ∧ renderToolResult (.str escRowInput) = .Table rows :=
  c10_escaped_rows_amended escRowInput (by decide) (by decide)

end Claims

end MedOryxADE
